import Mathlib

/-!
Shallow embedding of `src/main.rs` of `casper-trie-diag`: the `TRIE_STORE`
branch of `main` (explicit-stack trie traversal with leaf statistics,
EraInfo-leaf deletion chaining a root digest, and CSV report generation),
together with the helper `log_trie_leaf_stats`.

External collaborators (the `casper_*` crates and LMDB) are modelled
abstractly: a digest is a natural number, a raw store record is its byte
length together with the result of `Trie::from_bytes`, and the execution
engine's `delete_key` is an arbitrary function into `Result<DeleteResult>`.
-/

namespace TrieDiag

/-- A content digest (`casper_hashing::Digest`), abstracted to a natural
number; it is used only as a store key and as a node reference. -/
abbrev Digest := Nat

/-- Model of `casper_types::Key`, by its variants as far as this program by its variants as far as this program
consumes them: the program pattern-matches on `Key::EraInfo` and calls
`type_string()`.  Variants other than `EraInfo` are represented by a few
of the real tags; their payloads are abstracted to naturals. -/
inductive Key where
  | Account (n : Nat)
  | Hash (n : Nat)
  | URef (n : Nat)
  | Balance (n : Nat)
  | EraInfo (id : Nat)
deriving DecidableEq, Repr

/-- Model of `Key::type_string()` from `casper_types` (external collaborator): a
short symbolic tag per variant. -/
def Key.type_string : Key → String
  | .Account _ => "Key::Account"
  | .Hash _ => "Key::Hash"
  | .URef _ => "Key::URef"
  | .Balance _ => "Key::Balance"
  | .EraInfo _ => "Key::EraInfo"

/-- Whether a key is in the `Key::EraInfo` category (the program's
`if let Key::EraInfo(_) = trie_key` test). -/
def Key.isEraInfo : Key → Bool
  | .EraInfo _ => true
  | _ => false

/-- Model of `casper_types::StoredValue`, by the two attributes the spec's
data model names: its type tag (`type_name()`, the only attribute this
program reads) and the byte length of the value's own `bytesrepr`
encoding (not read by the program). -/
structure StoredValue where
  type_name : String
  serialized_length : Nat
deriving DecidableEq, Repr

/-- A child pointer of a branch or extension node; the program only ever
calls `into_hash()` on it. -/
structure Pointer where
  hash : Digest
deriving DecidableEq, Repr

/-- Model of `Pointer::into_hash()`. -/
def Pointer.into_hash (p : Pointer) : Digest := p.hash

/-- Model of `Trie<Key, StoredValue>`: the tagged trie-node type.  `Node`'s
`pointer_block` is given by `as_indexed_pointers()`: the present
`(index, pointer)` pairs in ascending index order. -/
inductive Trie where
  | Leaf (key : Key) (value : StoredValue)
  | Node (pointer_block : List (Nat × Pointer))
  | Extension (affix : List Nat) (pointer : Pointer)
deriving DecidableEq, Repr

/-- A raw LMDB record for a digest: the byte buffer is abstracted to its
length (`bytes.len()`) and the outcome of `Trie::from_bytes(bytes)`
(`none` models a deserialization failure). -/
structure RawRecord where
  len : Nat
  node : Option Trie
deriving DecidableEq, Repr

/-- Model of `casper_execution_engine::storage::trie_store::DeleteResult`. -/
inductive DeleteResult where
  | Deleted (root : Digest)
  | DoesNotExist
  | RootNotFound
deriving DecidableEq, Repr

/-- The environment the loop runs against: the read-only LMDB view
(`txn.get(db, ·)`) and the execution engine's mutation entry point
(`engine_state.delete_key(_, current_root, key)`); the `Except Unit`
layer models the surrounding `Result`. -/
structure Env where
  get : Digest → Option RawRecord
  delete_key : Digest → Key → Except Unit DeleteResult

/-- Increment an occurrence counter in an association-list rendering of
`HashMap<String, usize>`: `*map.entry(k).or_default() += 1`. -/
def bumpCount (m : List (String × Nat)) (k : String) : List (String × Nat) :=
  match m with
  | [] => [(k, 1)]
  | (k', v) :: rest => if k' = k then (k', v + 1) :: rest else (k', v) :: bumpCount rest k

/-- Append a byte length in an association-list rendering of
`HashMap<(String, String), Vec<usize>>`:
`map.entry(k).or_default().push(len)`. -/
def appendLen (m : List ((String × String) × List Nat)) (k : String × String) (len : Nat) :
    List ((String × String) × List Nat) :=
  match m with
  | [] => [(k, [len])]
  | (k', v) :: rest =>
      if k' = k then (k', v ++ [len]) :: rest else (k', v) :: appendLen rest k len

/-- Model of `log_trie_leaf_stats`: updates the three accumulators for one visited
leaf, returning `(key_tags, stored_value_tags, trie_lengths)`. -/
def log_trie_leaf_stats (trie_key : Key) (trie_value : StoredValue)
    (key_tags : List (String × Nat)) (stored_value_tags : List (String × Nat))
    (trie_lengths : List ((String × String) × List Nat)) (byte_len : Nat) :
    List (String × Nat) × List (String × Nat) × List ((String × String) × List Nat) :=
  let key_tag := trie_key.type_string
  let stored_value_tag := trie_value.type_name
  (bumpCount key_tags key_tag,
   bumpCount stored_value_tags stored_value_tag,
   appendLen trie_lengths (key_tag, stored_value_tag) byte_len)

/-- The mutable locals of `main`'s `TRIE_STORE` loop.  `unvisited_nodes`
is the `Vec<Digest>` stack with the head of the list as the top (the
`Vec`'s end, where `pop`/`push`/`append` operate). -/
structure LoopState where
  unvisited_nodes : List Digest
  deleted_era_info : Nat
  new_root_hash : Digest
  key_tags : List (String × Nat)
  stored_value_tags : List (String × Nat)
  trie_lengths : List ((String × String) × List Nat)
  largest_record : Nat
deriving DecidableEq, Repr

/-- The run-aborting failures of the loop body (each is a `panic!` /
`.expect(..)` in the source). -/
inductive RunError where
  | RootNotInDb (digest : Digest)
  | DeserializeFailed (digest : Digest)
  | DeleteNotDeleted (key : Key) (result : DeleteResult)
  | DeleteErr (key : Key)
deriving DecidableEq, Repr

/-- Outcome of one iteration of the `while let Some(digest) = ... .pop()`
loop: the loop exits (`done`), continues (`more`), or the process aborts
(`fail`). -/
inductive StepResult where
  | done (s : LoopState)
  | more (s : LoopState)
  | fail (e : RunError)
deriving DecidableEq, Repr

/-- One iteration of the traversal loop, translated line by line from
`main.rs` lines 87–145.  Children of a `Node` are appended to the `Vec`'s
end in ascending index order, so in the head-as-top rendering they are
pushed reversed. -/
def trieStep (env : Env) (s : LoopState) : StepResult :=
  match s.unvisited_nodes with
  | [] => .done s
  | digest :: rest =>
    match env.get digest with
    | none => .fail (.RootNotInDb digest)
    | some bytes =>
      let byte_len := bytes.len
      let largest_record :=
        if s.largest_record < byte_len then byte_len else s.largest_record
      match bytes.node with
      | none => .fail (.DeserializeFailed digest)
      | some trie_node =>
        match trie_node with
        | .Leaf trie_key trie_value =>
          let (key_tags, stored_value_tags, trie_lengths) :=
            log_trie_leaf_stats trie_key trie_value
              s.key_tags s.stored_value_tags s.trie_lengths byte_len
          let s' : LoopState :=
            { s with
              unvisited_nodes := rest
              key_tags := key_tags
              stored_value_tags := stored_value_tags
              trie_lengths := trie_lengths
              largest_record := largest_record }
          match trie_key with
          | .EraInfo id =>
            match env.delete_key s.new_root_hash (.EraInfo id) with
            | .ok (.Deleted root) =>
                .more { s' with
                        deleted_era_info := s'.deleted_era_info + 1
                        new_root_hash := root }
            | .ok delete => .fail (.DeleteNotDeleted (.EraInfo id) delete)
            | .error _ => .fail (.DeleteErr (.EraInfo id))
          | _ => .more s'
        | .Node pointer_block =>
            .more { s with
                    unvisited_nodes :=
                      (pointer_block.map (fun p => p.2.into_hash)).reverse ++ rest
                    largest_record := largest_record }
        | .Extension _ pointer =>
            .more { s with
                    unvisited_nodes := pointer.into_hash :: rest
                    largest_record := largest_record }

/-- The whole loop, fueled; `none` means the fuel ran out before the loop
exited (the source loop has no fuel: it runs until the stack empties or a
panic aborts the process). -/
def runTrie (env : Env) : Nat → LoopState → Option (Except RunError LoopState)
  | 0, _ => none
  | fuel + 1, s =>
    match trieStep env s with
    | .done s' => some (.ok s')
    | .fail e => some (.error e)
    | .more s' => runTrie env fuel s'

/-- The loop state as `main` sets it up just before the loop:
`unvisited_nodes = vec![state_root]`, `deleted_era_info = 0`,
`new_root_hash = state_root`, empty maps, `largest_record = 0`. -/
def initState (state_root : Digest) : LoopState :=
  { unvisited_nodes := [state_root]
    deleted_era_info := 0
    new_root_hash := state_root
    key_tags := []
    stored_value_tags := []
    trie_lengths := []
    largest_record := 0 }

/-- The `println!("deleted {deleted_era_info} era info entries.")` line
(`main.rs` line 148); it goes to standard output, before any report row
is written. -/
def deletedSummary (deleted_era_info : Nat) : String :=
  "deleted " ++ toString deleted_era_info ++ " era info entries."

/-- A `writeln!(report_writer, "\"{}\", {}", tag, count)` row. -/
def countRow (tag : String) (count : Nat) : String :=
  "\"" ++ tag ++ "\", " ++ toString count

/-- Model of `let total_len = lengths.iter().sum()`. -/
def total_len (lengths : List Nat) : Nat := lengths.sum

/-- Model of `let average_len = total_len / lengths.len()` (truncating `usize`
division). -/
def average_len (lengths : List Nat) : Nat := total_len lengths / lengths.length

/-- Model of `let max_len = *lengths.iter().max().unwrap()` (the caller guards
non-emptiness, so the fold's base is never returned on the live path). -/
def max_len (lengths : List Nat) : Nat := lengths.foldl Nat.max 0

/-- The body of the third report loop for one `((key_tag,
stored_value_tag), lengths)` entry: `none` models the `continue` taken
when `lengths.is_empty()`. -/
def pairRow (key_tag stored_value_tag : String) (lengths : List Nat) : Option String :=
  if lengths.isEmpty then none
  else some ("\"" ++ key_tag ++ "\", \"" ++ stored_value_tag ++ "\", "
      ++ toString (average_len lengths) ++ ", " ++ toString (max_len lengths)
      ++ ", " ++ toString (total_len lengths))

/-- One iteration of the loops writing the first two report sections:
emit the count row for one map entry. -/
def countStepW (w : List String) (kc : String × Nat) : List String :=
  w ++ [countRow kc.1 kc.2]

/-- One iteration of the loop writing the third report section: emit the
pair row unless the entry's length list is empty (the `continue`). -/
def pairStepW (w : List String) (entry : (String × String) × List Nat) : List String :=
  match pairRow entry.1.1 entry.1.2 entry.2 with
  | none => w
  | some row => w ++ [row]

/-- The third report section on its own: one row per pair with recorded
lengths, skipping empty entries. -/
def pairSection (trie_lengths : List ((String × String) × List Nat)) : List String :=
  trie_lengths.foldl pairStepW []

/-- The lines written to `report_writer` after the loop (`main.rs` lines
150–179), in order: the three CSV sections.  The `deleted ...` summary is
NOT among them: it is printed to stdout (see `deletedSummary`). -/
def writeReport (s : LoopState) : List String :=
  let w : List String := []
  let w := w ++ ["key_tag, count"]
  let w := s.key_tags.foldl countStepW w
  let w := w ++ ["stored_value_tag, count"]
  let w := s.stored_value_tags.foldl countStepW w
  let w := w ++ ["key_tag, stored_value_tag, average_len, max_len, total_len"]
  s.trie_lengths.foldl pairStepW w

/-- Sum of all counters in a tag-count map: `Σ countByKeyTag` /
`Σ countByValueTag`. -/
def sumCounts (m : List (String × Nat)) : Nat := (m.map Prod.snd).sum

/-- Total number of byte lengths recorded across all pairs; each visited
leaf appends exactly one length, so this is the number of leaf visits. -/
def totalLengths (m : List ((String × String) × List Nat)) : Nat :=
  (m.map (fun p => p.2.length)).sum

/-- Counter associated with a tag (`0` when the tag is absent). -/
def lookupCount (m : List (String × Nat)) (k : String) : Nat :=
  match m with
  | [] => 0
  | (k', v) :: rest => if k' = k then v else lookupCount rest k

/-- Length list associated with a pair (`[]` when the pair is absent). -/
def lookupLens (m : List ((String × String) × List Nat)) (k : String × String) : List Nat :=
  match m with
  | [] => []
  | (k', v) :: rest => if k' = k then v else lookupLens rest k

/-! ### Reference semantics: edge-unfolding trees

A well-formed store unfolds a root digest into a tree in which every
node reachable by pointers appears once per incoming edge (a subtree
shared through several pointers appears once under each).  This is the
independent reference object against which the traversal's counters are
checked. -/

/-- The unfolding of a digest under a store: one constructor per `Trie`
variant, children fully unfolded. -/
inductive TTree where
  | leaf (key : Key) (value : StoredValue) (len : Nat)
  | branch (children : List TTree)
  | ext (child : TTree)

mutual

/-- Number of `Leaf` nodes in an unfolding tree — the reference count of
Leaf-tagged nodes in the root's transitive closure, one per incoming
edge path. -/
def TTree.leafCount : TTree → Nat
  | .leaf _ _ _ => 1
  | .branch children => leafCountList children
  | .ext child => child.leafCount

/-- Sum of `TTree.leafCount` over a list of trees. -/
def leafCountList : List TTree → Nat
  | [] => 0
  | t :: ts => t.leafCount + leafCountList ts

end

mutual

/-- Number of `Leaf` nodes whose key is in the `EraInfo` category. -/
def TTree.eraLeafCount : TTree → Nat
  | .leaf key _ _ => if key.isEraInfo then 1 else 0
  | .branch children => eraLeafCountList children
  | .ext child => child.eraLeafCount

/-- Sum of `TTree.eraLeafCount` over a list of trees. -/
def eraLeafCountList : List TTree → Nat
  | [] => 0
  | t :: ts => t.eraLeafCount + eraLeafCountList ts

end

mutual

/-- Relation `Unfolds env d t`: under store view `env.get`, digest `d` resolves
and decodes, and `t` is its complete unfolding.  The existence of such a
`t` is the well-formedness of the store below `d`: every digest
reachable from `d` resolves, every record decodes, and the pointer graph
is acyclic (an infinite unfolding admits no tree). -/
inductive Unfolds (env : Env) : Digest → TTree → Prop where
  | leaf {d : Digest} {len : Nat} {k : Key} {v : StoredValue} :
      env.get d = some ⟨len, some (.Leaf k v)⟩ →
      Unfolds env d (.leaf k v len)
  | branch {d : Digest} {len : Nat} {pointer_block : List (Nat × Pointer)}
      {ts : List TTree} :
      env.get d = some ⟨len, some (.Node pointer_block)⟩ →
      UnfoldsList env (pointer_block.map (fun p => p.2.into_hash)) ts →
      Unfolds env d (.branch ts)
  | ext {d : Digest} {len : Nat} {affix : List Nat} {pointer : Pointer} {t : TTree} :
      env.get d = some ⟨len, some (.Extension affix pointer)⟩ →
      Unfolds env pointer.into_hash t →
      Unfolds env d (.ext t)

/-- Pointwise `Unfolds` between a list of digests and a list of trees. -/
inductive UnfoldsList (env : Env) : List Digest → List TTree → Prop where
  | nil : UnfoldsList env [] []
  | cons {d : Digest} {ds : List Digest} {t : TTree} {ts : List TTree} :
      Unfolds env d t → UnfoldsList env ds ts → UnfoldsList env (d :: ds) (t :: ts)

end

/-! ### Concrete test fixtures

A small well-formed store used to exercise the definitions: digest `0`
is a two-child branch, digest `1` an `Account`/`CLValue` leaf, digest
`2` an extension to digest `3`, and digest `3` an `EraInfo` leaf.  The
delete service of `envW` always succeeds, returning `r + 100` as the new
root of a delete against root `r`. -/

/-- Store contents for the fixtures. -/
def storeW : Digest → Option RawRecord
  | 0 => some ⟨10, some (.Node [(0, ⟨1⟩), (1, ⟨2⟩)])⟩
  | 1 => some ⟨120, some (.Leaf (.Account 7) ⟨"CLValue", 100⟩)⟩
  | 2 => some ⟨5, some (.Extension [3] ⟨3⟩)⟩
  | 3 => some ⟨40, some (.Leaf (.EraInfo 1) ⟨"EraInfo", 20⟩)⟩
  | _ => none

/-- Fixture environment with an always-succeeding delete service. -/
def envW : Env :=
  { get := storeW
    delete_key := fun root _ => .ok (.Deleted (root + 100)) }

/-- Fixture environment with a delete service that reports
`DoesNotExist` for every request. -/
def envWFailDelete : Env :=
  { get := storeW
    delete_key := fun _ _ => .ok .DoesNotExist }

/-- The unfolding of digest `0` under `storeW`. -/
def treeW : TTree :=
  .branch [.leaf (.Account 7) ⟨"CLValue", 100⟩ 120,
           .ext (.leaf (.EraInfo 1) ⟨"EraInfo", 20⟩ 40)]

/-- The loop state produced by running the traversal of `envW` from
root `0` to completion. -/
def finalW : LoopState :=
  { unvisited_nodes := []
    deleted_era_info := 1
    new_root_hash := 100
    key_tags := [("Key::EraInfo", 1), ("Key::Account", 1)]
    stored_value_tags := [("EraInfo", 1), ("CLValue", 1)]
    trie_lengths := [(("Key::EraInfo", "EraInfo"), [40]), (("Key::Account", "CLValue"), [120])]
    largest_record := 120 }

/-- The loop state produced by running the traversal of `envW` from
root `1` (a single `Account`/`CLValue` leaf) to completion. -/
def final1W : LoopState :=
  { unvisited_nodes := []
    deleted_era_info := 0
    new_root_hash := 1
    key_tags := [("Key::Account", 1)]
    stored_value_tags := [("CLValue", 1)]
    trie_lengths := [(("Key::Account", "CLValue"), [120])]
    largest_record := 120 }

/-- The loop state after one step of the traversal of `envW` from root
`3` (the `EraInfo` leaf digest): the leaf is logged and deleted. -/
def s3W : LoopState :=
  { unvisited_nodes := []
    deleted_era_info := 1
    new_root_hash := 103
    key_tags := [("Key::EraInfo", 1)]
    stored_value_tags := [("EraInfo", 1)]
    trie_lengths := [(("Key::EraInfo", "EraInfo"), [40])]
    largest_record := 40 }

/-- An environment whose store is empty: every lookup fails. -/
def envEmpty : Env :=
  { get := fun _ => none
    delete_key := fun _ _ => .ok .RootNotFound }

/-- An environment whose digest `9` is a childless branch (an empty
trie). -/
def envE : Env :=
  { get := fun d => if d = 9 then some ⟨7, some (.Node [])⟩ else none
    delete_key := fun _ _ => .ok .DoesNotExist }

/-- Every pair present in a `trie_lengths` map carries at least one
recorded length. -/
def lengthsNonempty (m : List ((String × String) × List Nat)) : Prop :=
  ∀ p ∈ m, p.2 ≠ []

/-! ### Helper lemmas about the accumulator maps -/

theorem sumCounts_bumpCount (m : List (String × Nat)) (k : String) :
    sumCounts (bumpCount m k) = sumCounts m + 1 := by
  induction m with
  | nil => simp [bumpCount, sumCounts]
  | cons kv rest ih =>
    obtain ⟨k', v⟩ := kv
    by_cases h : k' = k <;> simp [bumpCount, h, sumCounts] at * <;> omega

theorem lookupCount_bumpCount_self (m : List (String × Nat)) (k : String) :
    lookupCount (bumpCount m k) k = lookupCount m k + 1 := by
  induction m with
  | nil => simp [bumpCount, lookupCount]
  | cons kv rest ih =>
    obtain ⟨k', v⟩ := kv
    by_cases h : k' = k <;> simp [bumpCount, h, lookupCount, ih]

theorem lookupCount_bumpCount_ne (m : List (String × Nat)) (k k' : String) (h : k' ≠ k) :
    lookupCount (bumpCount m k) k' = lookupCount m k' := by
  induction m with
  | nil => simp [bumpCount, lookupCount, Ne.symm h]
  | cons kv rest ih =>
    obtain ⟨a, v⟩ := kv
    by_cases ha : a = k
    · subst ha
      simp [bumpCount, lookupCount, Ne.symm h]
    · by_cases ha' : a = k' <;> simp [bumpCount, lookupCount, ha, ha', ih, h]

theorem totalLengths_appendLen (m : List ((String × String) × List Nat))
    (k : String × String) (len : Nat) :
    totalLengths (appendLen m k len) = totalLengths m + 1 := by
  induction m with
  | nil => simp [appendLen, totalLengths]
  | cons kv rest ih =>
    obtain ⟨k', v⟩ := kv
    by_cases h : k' = k <;> simp [appendLen, h, totalLengths] at * <;> omega

theorem lookupLens_appendLen_self (m : List ((String × String) × List Nat))
    (k : String × String) (len : Nat) :
    lookupLens (appendLen m k len) k = lookupLens m k ++ [len] := by
  induction m with
  | nil => simp [appendLen, lookupLens]
  | cons kv rest ih =>
    obtain ⟨k', v⟩ := kv
    by_cases h : k' = k <;> simp [appendLen, h, lookupLens, ih]

theorem lookupLens_appendLen_ne (m : List ((String × String) × List Nat))
    (k k' : String × String) (len : Nat) (h : k' ≠ k) :
    lookupLens (appendLen m k len) k' = lookupLens m k' := by
  induction m with
  | nil => simp [appendLen, lookupLens, Ne.symm h]
  | cons kv rest ih =>
    obtain ⟨a, v⟩ := kv
    by_cases ha : a = k
    · subst ha
      simp [appendLen, lookupLens, Ne.symm h]
    · by_cases ha' : a = k' <;> simp [appendLen, lookupLens, ha, ha', ih, h]

/-! ### Helper lemmas about unfolding trees -/

theorem leafCountList_append (a b : List TTree) :
    leafCountList (a ++ b) = leafCountList a + leafCountList b := by
  induction a with
  | nil => simp [leafCountList]
  | cons t ts ih => simp [leafCountList, ih]; omega

theorem leafCountList_reverse (a : List TTree) :
    leafCountList a.reverse = leafCountList a := by
  induction a with
  | nil => rfl
  | cons t ts ih =>
    simp [List.reverse_cons, leafCountList_append, leafCountList, ih]
    omega

theorem eraLeafCountList_append (a b : List TTree) :
    eraLeafCountList (a ++ b) = eraLeafCountList a + eraLeafCountList b := by
  induction a with
  | nil => simp [eraLeafCountList]
  | cons t ts ih => simp [eraLeafCountList, ih]; omega

theorem eraLeafCountList_reverse (a : List TTree) :
    eraLeafCountList a.reverse = eraLeafCountList a := by
  induction a with
  | nil => rfl
  | cons t ts ih =>
    simp [List.reverse_cons, eraLeafCountList_append, eraLeafCountList, ih]
    omega

theorem UnfoldsList.append {env : Env} {as bs : List Digest} {ts us : List TTree}
    (ha : UnfoldsList env as ts) (hb : UnfoldsList env bs us) :
    UnfoldsList env (as ++ bs) (ts ++ us) := by
  induction as generalizing ts with
  | nil => cases ha; simpa using hb
  | cons d ds ih =>
    cases ha with
    | cons h htl => exact .cons h (ih htl)

theorem UnfoldsList.reverse {env : Env} {as : List Digest} {ts : List TTree}
    (ha : UnfoldsList env as ts) : UnfoldsList env as.reverse ts.reverse := by
  induction as generalizing ts with
  | nil => cases ha; exact .nil
  | cons d ds ih =>
    cases ha with
    | cons h htl => simpa using (ih htl).append (.cons h .nil)

/-- Central invariant: when the stack unfolds to trees `ts` and the loop
runs to completion, each aggregate grows by exactly the corresponding
count over `ts`. -/
theorem runTrie_ok_stats (env : Env) :
    ∀ (fuel : Nat) (s : LoopState) (ts : List TTree) (final : LoopState),
      UnfoldsList env s.unvisited_nodes ts →
      runTrie env fuel s = some (.ok final) →
      sumCounts final.key_tags = sumCounts s.key_tags + leafCountList ts ∧
      sumCounts final.stored_value_tags = sumCounts s.stored_value_tags + leafCountList ts ∧
      totalLengths final.trie_lengths = totalLengths s.trie_lengths + leafCountList ts ∧
      final.deleted_era_info = s.deleted_era_info + eraLeafCountList ts := by
  intro fuel
  induction fuel with
  | zero =>
    intro s ts final _ hrun
    simp [runTrie] at hrun
  | succ n ih =>
    intro s ts final hu hrun
    rcases hList : s.unvisited_nodes with _ | ⟨d, rest⟩
    · rw [hList] at hu
      cases hu
      simp [runTrie, trieStep, hList] at hrun
      subst hrun
      simp [leafCountList, eraLeafCountList]
    · rw [hList] at hu
      cases hu with
      | cons ht htl =>
        rename_i t ts'
        cases ht with
        | leaf hget =>
          rename_i len k v
          cases k with
          | EraInfo id =>
            rcases hdel : env.delete_key s.new_root_hash (.EraInfo id) with e | res
            · simp [runTrie, trieStep, hList, hget, log_trie_leaf_stats, hdel] at hrun
            · cases res with
              | Deleted root =>
                simp only [runTrie, trieStep, hList, hget, log_trie_leaf_stats, hdel] at hrun
                have := ih _ ts' final (by simpa using htl) hrun
                simp only at this
                simp [TTree.leafCount, leafCountList, TTree.eraLeafCount, eraLeafCountList,
                  Key.isEraInfo, sumCounts_bumpCount, totalLengths_appendLen] at this ⊢
                omega
              | DoesNotExist =>
                simp [runTrie, trieStep, hList, hget, log_trie_leaf_stats, hdel] at hrun
              | RootNotFound =>
                simp [runTrie, trieStep, hList, hget, log_trie_leaf_stats, hdel] at hrun
          | Account id =>
            simp only [runTrie, trieStep, hList, hget, log_trie_leaf_stats] at hrun
            have := ih _ ts' final (by simpa using htl) hrun
            simp only at this
            simp [TTree.leafCount, leafCountList, TTree.eraLeafCount, eraLeafCountList,
              Key.isEraInfo, sumCounts_bumpCount, totalLengths_appendLen] at this ⊢
            omega
          | Hash id =>
            simp only [runTrie, trieStep, hList, hget, log_trie_leaf_stats] at hrun
            have := ih _ ts' final (by simpa using htl) hrun
            simp only at this
            simp [TTree.leafCount, leafCountList, TTree.eraLeafCount, eraLeafCountList,
              Key.isEraInfo, sumCounts_bumpCount, totalLengths_appendLen] at this ⊢
            omega
          | URef id =>
            simp only [runTrie, trieStep, hList, hget, log_trie_leaf_stats] at hrun
            have := ih _ ts' final (by simpa using htl) hrun
            simp only at this
            simp [TTree.leafCount, leafCountList, TTree.eraLeafCount, eraLeafCountList,
              Key.isEraInfo, sumCounts_bumpCount, totalLengths_appendLen] at this ⊢
            omega
          | Balance id =>
            simp only [runTrie, trieStep, hList, hget, log_trie_leaf_stats] at hrun
            have := ih _ ts' final (by simpa using htl) hrun
            simp only at this
            simp [TTree.leafCount, leafCountList, TTree.eraLeafCount, eraLeafCountList,
              Key.isEraInfo, sumCounts_bumpCount, totalLengths_appendLen] at this ⊢
            omega
        | branch hget hch =>
          rename_i len pb cts
          simp only [runTrie, trieStep, hList, hget] at hrun
          have hstack : UnfoldsList env
              ((pb.map (fun p => p.2.into_hash)).reverse ++ rest) (cts.reverse ++ ts') :=
            (hch.reverse).append htl
          have := ih _ (cts.reverse ++ ts') final (by simpa using hstack) hrun
          simp only at this
          simp [TTree.leafCount, leafCountList, TTree.eraLeafCount, eraLeafCountList,
            leafCountList_append, leafCountList_reverse,
            eraLeafCountList_append, eraLeafCountList_reverse] at this ⊢
          omega
        | ext hget hchild =>
          rename_i len affix ptr ct
          simp only [runTrie, trieStep, hList, hget] at hrun
          have := ih _ (ct :: ts') final (by simpa using (UnfoldsList.cons hchild htl)) hrun
          simp only at this
          simp [TTree.leafCount, leafCountList, TTree.eraLeafCount, eraLeafCountList] at this ⊢
          omega

/-! ### Helper lemmas about the report folds -/

theorem foldl_countStepW (l : List (String × Nat)) (w : List String) :
    l.foldl countStepW w = w ++ l.map (fun kc => countRow kc.1 kc.2) := by
  induction l generalizing w with
  | nil => simp
  | cons kc rest ih => simp [countStepW, ih]

theorem pairStepW_eq (w : List String) (e : (String × String) × List Nat) :
    pairStepW w e = w ++ pairStepW [] e := by
  unfold pairStepW
  cases pairRow e.1.1 e.1.2 e.2 <;> simp

theorem foldl_pairStepW (l : List ((String × String) × List Nat)) (w : List String) :
    l.foldl pairStepW w = w ++ pairSection l := by
  induction l generalizing w with
  | nil => simp [pairSection]
  | cons e rest ih =>
    have hsec : pairSection (e :: rest) = pairStepW [] e ++ pairSection rest := by
      simp only [pairSection, List.foldl_cons]
      rw [ih]; rfl
    rw [List.foldl_cons, ih, hsec, pairStepW_eq, List.append_assoc]

/-! ### Helper lemmas about `max_len`, `total_len`, `average_len` -/

theorem foldl_max_init_le (l : List Nat) : ∀ a, a ≤ l.foldl Nat.max a := by
  induction l with
  | nil => intro a; simp
  | cons x xs ih =>
    intro a
    exact le_trans (Nat.le_max_left a x) (ih (Nat.max a x))

theorem mem_le_foldl_max (l : List Nat) : ∀ a x, x ∈ l → x ≤ l.foldl Nat.max a := by
  induction l with
  | nil => intro a x h; simp at h
  | cons y ys ih =>
    intro a x h
    rcases List.mem_cons.mp h with h | h
    · subst h
      exact le_trans (Nat.le_max_right a x) (foldl_max_init_le ys _)
    · exact ih _ x h

theorem foldl_max_mem (l : List Nat) : ∀ a, l.foldl Nat.max a = a ∨ l.foldl Nat.max a ∈ l := by
  induction l with
  | nil => intro a; left; rfl
  | cons y ys ih =>
    intro a
    rcases ih (Nat.max a y) with h | h
    · rcases Nat.le_total a y with hay | hya
      · right
        rw [List.foldl_cons, h]
        have hy : a.max y = y := Nat.max_eq_right hay
        rw [hy]
        exact List.mem_cons_self y ys
      · left
        rw [List.foldl_cons, h]
        exact Nat.max_eq_left hya
    · right
      exact List.mem_cons_of_mem y h

theorem max_len_mem (l : List Nat) (h : l ≠ []) : max_len l ∈ l := by
  rcases foldl_max_mem l 0 with h0 | hm
  · cases l with
    | nil => exact absurd rfl h
    | cons x xs =>
      have hx : x ≤ (x :: xs).foldl Nat.max 0 :=
        mem_le_foldl_max _ 0 x (List.mem_cons_self x xs)
      rw [h0] at hx
      have hx0 : x = 0 := Nat.le_zero.mp hx
      rw [max_len, h0, ← hx0]
      exact List.mem_cons_self x xs
  · exact hm

theorem mem_le_max_len (l : List Nat) (x : Nat) (h : x ∈ l) : x ≤ max_len l :=
  mem_le_foldl_max l 0 x h

theorem sum_le_length_mul (l : List Nat) (M : Nat) (h : ∀ x ∈ l, x ≤ M) :
    l.sum ≤ l.length * M := by
  induction l with
  | nil => simp
  | cons x xs ih =>
    have hxs := ih (fun y hy => h y (List.mem_cons_of_mem x hy))
    have hx := h x (List.mem_cons_self x xs)
    simp only [List.sum_cons, List.length_cons, Nat.succ_mul]
    omega

/-! ### Helper lemmas for the non-emptiness invariant of `trie_lengths` -/

theorem lengthsNonempty_appendLen (m : List ((String × String) × List Nat))
    (k : String × String) (len : Nat) (h : lengthsNonempty m) :
    lengthsNonempty (appendLen m k len) := by
  induction m with
  | nil =>
    intro p hp
    simp [appendLen] at hp
    simp [hp]
  | cons kv rest ih =>
    obtain ⟨k', v⟩ := kv
    have hrest : lengthsNonempty rest := fun p hp => h p (List.mem_cons_of_mem _ hp)
    by_cases hk : k' = k
    · intro p hp
      simp only [appendLen, hk, if_pos rfl] at hp
      rcases List.mem_cons.mp hp with hp | hp
      · subst hp; simp
      · exact h p (List.mem_cons_of_mem _ hp)
    · intro p hp
      simp only [appendLen, if_neg hk] at hp
      rcases List.mem_cons.mp hp with hp | hp
      · subst hp
        exact h (k', v) (List.mem_cons_self _ _)
      · exact ih hrest p hp

theorem pairSection_length (m : List ((String × String) × List Nat))
    (h : lengthsNonempty m) : (pairSection m).length = m.length := by
  induction m with
  | nil => simp [pairSection]
  | cons e rest ih =>
    have he : e.2 ≠ [] := h e (List.mem_cons_self _ _)
    have hrest : lengthsNonempty rest := fun p hp => h p (List.mem_cons_of_mem _ hp)
    have hsec : pairSection (e :: rest) = pairStepW [] e ++ pairSection rest := by
      simp only [pairSection, List.foldl_cons]
      rw [foldl_pairStepW]; rfl
    rw [hsec]
    have hrow : pairStepW [] e = [("\"" ++ e.1.1 ++ "\", \"" ++ e.1.2 ++ "\", "
        ++ toString (average_len e.2) ++ ", " ++ toString (max_len e.2)
        ++ ", " ++ toString (total_len e.2))] := by
      simp [pairStepW, pairRow, he]
    rw [hrow]
    simp [ih hrest]

/-! ### Claim theorems -/

/-- Claim C1: over a well-formed store (root `R` unfolds to the tree
`t`, which lists every reachable node once per incoming edge), a
traversal run that completes has `Σ countByKeyTag = Σ countByValueTag =
total leaf visits` (one byte length is recorded per leaf visit), and
each equals the independent reference count `TTree.leafCount t` of
Leaf-tagged nodes in `R`'s transitive closure. -/
theorem C1_leaf_counts_match_reference (env : Env) (R : Digest) (t : TTree)
    (fuel : Nat) (final : LoopState)
    (hwf : Unfolds env R t)
    (hrun : runTrie env fuel (initState R) = some (.ok final)) :
    sumCounts final.key_tags = t.leafCount ∧
    sumCounts final.stored_value_tags = t.leafCount ∧
    totalLengths final.trie_lengths = t.leafCount := by
  obtain ⟨h1, h2, h3, -⟩ := runTrie_ok_stats env fuel (initState R) [t] final
    (UnfoldsList.cons hwf UnfoldsList.nil) hrun
  simp [initState, sumCounts, totalLengths, leafCountList] at h1 h2 h3
  exact ⟨h1, h2, h3⟩

/-- Witness: `C1_leaf_counts_match_reference` instantiated on the fixture store
`envW` from root `0`. -/
theorem C1_leaf_counts_match_reference_witness :
    sumCounts finalW.key_tags = treeW.leafCount ∧
    sumCounts finalW.stored_value_tags = treeW.leafCount ∧
    totalLengths finalW.trie_lengths = treeW.leafCount :=
  C1_leaf_counts_match_reference envW 0 treeW 10 finalW
    (Unfolds.branch rfl
      (UnfoldsList.cons (Unfolds.leaf rfl)
        (UnfoldsList.cons (Unfolds.ext rfl (Unfolds.leaf rfl)) UnfoldsList.nil)))
    rfl

/-- Claim C2: `new_root_hash` is initialized to the starting root, and a
continuing loop step either leaves the deletion counter and the root
unchanged, or increments the counter by exactly one through a delete
request that carried the current (most recently produced) root and
whose returned root becomes the new current root — so deletions form a
sequential dependent chain in visit order. -/
theorem C2_root_state_chain :
    (∀ R : Digest, (initState R).new_root_hash = R) ∧
    (∀ (env : Env) (s s' : LoopState), trieStep env s = .more s' →
       (s'.deleted_era_info = s.deleted_era_info ∧ s'.new_root_hash = s.new_root_hash) ∨
       (s'.deleted_era_info = s.deleted_era_info + 1 ∧
        ∃ id : Nat, env.delete_key s.new_root_hash (.EraInfo id) =
          .ok (.Deleted s'.new_root_hash))) := by
  refine ⟨fun R => rfl, ?_⟩
  intro env s s' hstep
  rcases hl : s.unvisited_nodes with _ | ⟨d, rest⟩
  · simp [trieStep, hl] at hstep
  · rcases hg : env.get d with _ | ⟨len, node⟩
    · simp [trieStep, hl, hg] at hstep
    · rcases node with _ | tn
      · simp [trieStep, hl, hg] at hstep
      · cases tn with
        | Leaf k v =>
          cases k with
          | EraInfo id =>
            rcases hdel : env.delete_key s.new_root_hash (.EraInfo id) with e | res
            · simp [trieStep, hl, hg, log_trie_leaf_stats, hdel] at hstep
            · cases res with
              | Deleted root =>
                simp [trieStep, hl, hg, log_trie_leaf_stats, hdel] at hstep
                subst hstep
                right
                exact ⟨by simp, id, by simpa using hdel⟩
              | DoesNotExist =>
                simp [trieStep, hl, hg, log_trie_leaf_stats, hdel] at hstep
              | RootNotFound =>
                simp [trieStep, hl, hg, log_trie_leaf_stats, hdel] at hstep
          | Account n =>
            simp [trieStep, hl, hg, log_trie_leaf_stats] at hstep
            subst hstep
            left
            exact ⟨by simp, by simp⟩
          | Hash n =>
            simp [trieStep, hl, hg, log_trie_leaf_stats] at hstep
            subst hstep
            left
            exact ⟨by simp, by simp⟩
          | URef n =>
            simp [trieStep, hl, hg, log_trie_leaf_stats] at hstep
            subst hstep
            left
            exact ⟨by simp, by simp⟩
          | Balance n =>
            simp [trieStep, hl, hg, log_trie_leaf_stats] at hstep
            subst hstep
            left
            exact ⟨by simp, by simp⟩
        | Node pb =>
          simp [trieStep, hl, hg] at hstep
          subst hstep
          left
          exact ⟨by simp, by simp⟩
        | Extension affix ptr =>
          simp [trieStep, hl, hg] at hstep
          subst hstep
          left
          exact ⟨by simp, by simp⟩

/-- Witness: `C2_root_state_chain` instantiated on the fixture store: the step
from root `3` performs one chained deletion. -/
theorem C2_root_state_chain_witness :
    (initState 0).new_root_hash = 0 ∧
    ((s3W.deleted_era_info = (initState 3).deleted_era_info ∧
      s3W.new_root_hash = (initState 3).new_root_hash) ∨
     (s3W.deleted_era_info = (initState 3).deleted_era_info + 1 ∧
      ∃ id : Nat, envW.delete_key (initState 3).new_root_hash (.EraInfo id) =
        .ok (.Deleted s3W.new_root_hash))) :=
  ⟨C2_root_state_chain.1 0, C2_root_state_chain.2 envW (initState 3) s3W (by decide)⟩

/-- Claim C3: the three error categories are fatal and unrecoverable: a
popped digest absent from the store fails the step with
`RootNotInDb`, undecodable bytes fail it with `DeserializeFailed`, a
non-`Deleted` delete outcome fails it with `DeleteNotDeleted` or
`DeleteErr`; and any failing step makes the whole run return that error
immediately, with no retry or partial continuation. -/
theorem C3_every_error_fatal :
    (∀ (env : Env) (s : LoopState) (d : Digest) (rest : List Digest),
       s.unvisited_nodes = d :: rest → env.get d = none →
       trieStep env s = .fail (.RootNotInDb d)) ∧
    (∀ (env : Env) (s : LoopState) (d : Digest) (rest : List Digest) (len : Nat),
       s.unvisited_nodes = d :: rest → env.get d = some ⟨len, none⟩ →
       trieStep env s = .fail (.DeserializeFailed d)) ∧
    (∀ (env : Env) (s : LoopState) (d : Digest) (rest : List Digest) (len : Nat)
       (id : Nat) (v : StoredValue) (res : DeleteResult),
       s.unvisited_nodes = d :: rest →
       env.get d = some ⟨len, some (.Leaf (.EraInfo id) v)⟩ →
       env.delete_key s.new_root_hash (.EraInfo id) = .ok res →
       (∀ root, res ≠ .Deleted root) →
       trieStep env s = .fail (.DeleteNotDeleted (.EraInfo id) res)) ∧
    (∀ (env : Env) (s : LoopState) (d : Digest) (rest : List Digest) (len : Nat)
       (id : Nat) (v : StoredValue) (e : Unit),
       s.unvisited_nodes = d :: rest →
       env.get d = some ⟨len, some (.Leaf (.EraInfo id) v)⟩ →
       env.delete_key s.new_root_hash (.EraInfo id) = .error e →
       trieStep env s = .fail (.DeleteErr (.EraInfo id))) ∧
    (∀ (env : Env) (fuel : Nat) (s : LoopState) (e : RunError),
       trieStep env s = .fail e → runTrie env (fuel + 1) s = some (.error e)) := by
  refine ⟨?_, ?_, ?_, ?_, ?_⟩
  · intro env s d rest hl hg
    simp [trieStep, hl, hg]
  · intro env s d rest len hl hg
    simp [trieStep, hl, hg]
  · intro env s d rest len id v res hl hg hdel hne
    cases res with
    | Deleted root => exact absurd rfl (hne root)
    | DoesNotExist => simp [trieStep, hl, hg, log_trie_leaf_stats, hdel]
    | RootNotFound => simp [trieStep, hl, hg, log_trie_leaf_stats, hdel]
  · intro env s d rest len id v e hl hg hdel
    simp [trieStep, hl, hg, log_trie_leaf_stats, hdel]
  · intro env fuel s e hstep
    simp [runTrie, hstep]

/-- Witness: `C3_every_error_fatal` instantiated: a root absent from the empty
store fails the first step and aborts the run with that error. -/
theorem C3_every_error_fatal_witness :
    trieStep envEmpty (initState 5) = .fail (.RootNotInDb 5) ∧
    runTrie envEmpty 1 (initState 5) = some (.error (.RootNotInDb 5)) :=
  ⟨C3_every_error_fatal.1 envEmpty (initState 5) 5 [] rfl rfl,
   C3_every_error_fatal.2.2.2.2 envEmpty 0 (initState 5) (.RootNotInDb 5)
     (C3_every_error_fatal.1 envEmpty (initState 5) 5 [] rfl rfl)⟩

/-- The third section splits off one entry at a time. -/
theorem pairSection_cons (e : (String × String) × List Nat)
    (rest : List ((String × String) × List Nat)) :
    pairSection (e :: rest) = pairStepW [] e ++ pairSection rest := by
  simp only [pairSection, List.foldl_cons]
  rw [foldl_pairStepW]; rfl

/-- Every report body row of the first two sections opens with a double
quote. -/
theorem head_countRow (tag : String) (c : Nat) :
    (countRow tag c).data.head? = some '"' := by
  have h1 : ("\"" : String).data = ['"'] := rfl
  simp [countRow, String.data_append, h1]

/-- Every row of the third section opens with a double quote. -/
theorem head_mem_pairSection (m : List ((String × String) × List Nat)) (x : String)
    (h : x ∈ pairSection m) : x.data.head? = some '"' := by
  induction m with
  | nil => simp [pairSection] at h
  | cons e rest ih =>
    rw [pairSection_cons] at h
    rcases List.mem_append.mp h with h | h
    · unfold pairStepW at h
      rcases hrow : pairRow e.1.1 e.1.2 e.2 with _ | row
      · rw [hrow] at h; simp at h
      · rw [hrow] at h
        simp at h
        subst h
        have hsome : (pairRow e.1.1 e.1.2 e.2).isSome = true := by simp [hrow]
        rw [pairRow] at hrow
        by_cases he : e.2.isEmpty
        · simp [he] at hrow
        · simp only [he, if_neg, Bool.false_eq_true, not_false_eq_true, if_false] at hrow
          have h1 : ("\"" : String).data = ['"'] := rfl
          have := Option.some.inj hrow
          rw [← this]
          simp [String.data_append, h1]
    · exact ih h

/-- The stdout deletion summary opens with the letter `d`. -/
theorem head_deletedSummary (n : Nat) : (deletedSummary n).data.head? = some 'd' := by
  have h1 : ("deleted " : String).data = 'd' :: "eleted ".data := rfl
  simp [deletedSummary, String.data_append, h1]

/-- The report is exactly the three sections in order. -/
theorem writeReport_sections (s : LoopState) :
    writeReport s =
      "key_tag, count" :: (s.key_tags.map (fun kc => countRow kc.1 kc.2)
        ++ "stored_value_tag, count" :: (s.stored_value_tags.map (fun kc => countRow kc.1 kc.2)
        ++ "key_tag, stored_value_tag, average_len, max_len, total_len"
            :: pairSection s.trie_lengths)) := by
  simp [writeReport, foldl_countStepW, foldl_pairStepW]

/-- Claim C4 counterexample: on the completed fixture run from root `0`
the final deletion count is `1`, yet the report file does not contain —
neither as a trailing line nor anywhere else — the summary line
`deleted 1 entries.`; its last line is the last pair row. -/
theorem C4_report_counterexample :
    runTrie envW 10 (initState 0) = some (.ok finalW) ∧
    finalW.deleted_era_info = 1 ∧
    "deleted 1 entries." ∉ writeReport finalW ∧
    (writeReport finalW).getLast? = some "\"Key::Account\", \"CLValue\", 120, 120, 120" :=
  ⟨rfl, rfl, by decide, by decide⟩

/-- Claim C4 (amended): on a successful run the report file consists of
exactly the three CSV sections, each header followed by its body rows,
and of nothing else — in particular no deletion summary of any count is
in the file; the summary line `deleted <N> era info entries.`
(`deletedSummary`) is printed to standard output instead, before the
sections are written. -/
theorem C4_report_sections_stdout_summary (s : LoopState) :
    writeReport s =
      "key_tag, count" :: (s.key_tags.map (fun kc => countRow kc.1 kc.2)
        ++ "stored_value_tag, count" :: (s.stored_value_tags.map (fun kc => countRow kc.1 kc.2)
        ++ "key_tag, stored_value_tag, average_len, max_len, total_len"
            :: pairSection s.trie_lengths)) ∧
    ∀ n : Nat, deletedSummary n ∉ writeReport s := by
  refine ⟨writeReport_sections s, ?_⟩
  intro n hmem
  have hd := head_deletedSummary n
  rw [writeReport_sections s] at hmem
  rcases List.mem_cons.mp hmem with h | hmem
  · rw [h] at hd
    simp at hd
  rcases List.mem_append.mp hmem with h | hmem
  · obtain ⟨kc, -, h⟩ := List.mem_map.mp h
    rw [← h] at hd
    rw [head_countRow] at hd
    simp at hd
  rcases List.mem_cons.mp hmem with h | hmem
  · rw [h] at hd
    simp at hd
  rcases List.mem_append.mp hmem with h | hmem
  · obtain ⟨kc, -, h⟩ := List.mem_map.mp h
    rw [← h] at hd
    rw [head_countRow] at hd
    simp at hd
  rcases List.mem_cons.mp hmem with h | hmem
  · rw [h] at hd
    simp at hd
  · rw [head_mem_pairSection s.trie_lengths _ hmem] at hd
    simp at hd

/-- Witness: `C4_report_sections_stdout_summary` instantiated on the fixture
final state. -/
theorem C4_report_sections_stdout_summary_witness :
    writeReport finalW =
      ["key_tag, count", "\"Key::EraInfo\", 1", "\"Key::Account\", 1",
       "stored_value_tag, count", "\"EraInfo\", 1", "\"CLValue\", 1",
       "key_tag, stored_value_tag, average_len, max_len, total_len",
       "\"Key::EraInfo\", \"EraInfo\", 40, 40, 40",
       "\"Key::Account\", \"CLValue\", 120, 120, 120"] ∧
    deletedSummary 1 ∉ writeReport finalW :=
  ⟨((C4_report_sections_stdout_summary finalW).1).trans (by decide),
   (C4_report_sections_stdout_summary finalW).2 1⟩

/-- Claim C5 counterexample: the fixture leaf at digest `1` has a
`CLValue` whose own serialized length is `100`, but its whole trie
record is `120` bytes; the completed run records `120` — the record's
length, not the StoredValue's serialized byte length. -/
theorem C5_byte_length_counterexample :
    runTrie envW 10 (initState 0) = some (.ok finalW) ∧
    envW.get 1 = some ⟨120, some (.Leaf (.Account 7) ⟨"CLValue", 100⟩)⟩ ∧
    (⟨"CLValue", 100⟩ : StoredValue).serialized_length = 100 ∧
    lookupLens finalW.trie_lengths ("Key::Account", "CLValue") = [120] ∧
    lookupLens finalW.trie_lengths ("Key::Account", "CLValue") ≠
      [(⟨"CLValue", 100⟩ : StoredValue).serialized_length] :=
  ⟨rfl, rfl, rfl, rfl, by decide⟩

/-- Claim C5 (amended): for every visited leaf whose step continues, the
aggregator performs exactly these updates: `countByKeyTag[keyTag]` and
`countByValueTag[valueTag]` each grow by one (all other tags
untouched), and `byteLength` is appended to
`lengthsByPair[(keyTag, valueTag)]` (all other pairs untouched), where
`byteLength` is the byte length of the leaf's whole serialized trie
record as fetched from the store — not the StoredValue's own serialized
length. -/
theorem C5_leaf_updates_record_length (env : Env) (s s' : LoopState) (d : Digest)
    (rest : List Digest) (rec : RawRecord) (k : Key) (v : StoredValue)
    (hList : s.unvisited_nodes = d :: rest)
    (hget : env.get d = some rec)
    (hnode : rec.node = some (.Leaf k v))
    (hstep : trieStep env s = .more s') :
    lookupCount s'.key_tags k.type_string = lookupCount s.key_tags k.type_string + 1 ∧
    (∀ tag, tag ≠ k.type_string →
       lookupCount s'.key_tags tag = lookupCount s.key_tags tag) ∧
    lookupCount s'.stored_value_tags v.type_name =
      lookupCount s.stored_value_tags v.type_name + 1 ∧
    (∀ tag, tag ≠ v.type_name →
       lookupCount s'.stored_value_tags tag = lookupCount s.stored_value_tags tag) ∧
    lookupLens s'.trie_lengths (k.type_string, v.type_name) =
      lookupLens s.trie_lengths (k.type_string, v.type_name) ++ [rec.len] ∧
    (∀ p, p ≠ (k.type_string, v.type_name) →
       lookupLens s'.trie_lengths p = lookupLens s.trie_lengths p) := by
  obtain ⟨len, node⟩ := rec
  simp only at hnode
  subst hnode
  have hstats : s'.key_tags = bumpCount s.key_tags k.type_string ∧
      s'.stored_value_tags = bumpCount s.stored_value_tags v.type_name ∧
      s'.trie_lengths = appendLen s.trie_lengths (k.type_string, v.type_name) len := by
    cases k with
    | EraInfo id =>
      rcases hdel : env.delete_key s.new_root_hash (.EraInfo id) with e | res
      · simp [trieStep, hList, hget, log_trie_leaf_stats, hdel] at hstep
      · cases res with
        | Deleted root =>
          simp [trieStep, hList, hget, log_trie_leaf_stats, hdel] at hstep
          subst hstep
          exact ⟨rfl, rfl, rfl⟩
        | DoesNotExist =>
          simp [trieStep, hList, hget, log_trie_leaf_stats, hdel] at hstep
        | RootNotFound =>
          simp [trieStep, hList, hget, log_trie_leaf_stats, hdel] at hstep
    | Account n =>
      simp [trieStep, hList, hget, log_trie_leaf_stats] at hstep
      subst hstep
      exact ⟨rfl, rfl, rfl⟩
    | Hash n =>
      simp [trieStep, hList, hget, log_trie_leaf_stats] at hstep
      subst hstep
      exact ⟨rfl, rfl, rfl⟩
    | URef n =>
      simp [trieStep, hList, hget, log_trie_leaf_stats] at hstep
      subst hstep
      exact ⟨rfl, rfl, rfl⟩
    | Balance n =>
      simp [trieStep, hList, hget, log_trie_leaf_stats] at hstep
      subst hstep
      exact ⟨rfl, rfl, rfl⟩
  obtain ⟨h1, h2, h3⟩ := hstats
  refine ⟨?_, ?_, ?_, ?_, ?_, ?_⟩
  · rw [h1, lookupCount_bumpCount_self]
  · intro tag ht
    rw [h1, lookupCount_bumpCount_ne _ _ _ ht]
  · rw [h2, lookupCount_bumpCount_self]
  · intro tag ht
    rw [h2, lookupCount_bumpCount_ne _ _ _ ht]
  · rw [h3, lookupLens_appendLen_self]
  · intro p hp
    rw [h3, lookupLens_appendLen_ne _ _ _ _ hp]

/-- Witness: `C5_leaf_updates_record_length` instantiated on the fixture step
visiting the `Account`/`CLValue` leaf at digest `1` (record length
`120`). -/
theorem C5_leaf_updates_record_length_witness :
    lookupCount final1W.key_tags "Key::Account" =
      lookupCount (initState 1).key_tags "Key::Account" + 1 ∧
    lookupCount final1W.key_tags "Key::Hash" =
      lookupCount (initState 1).key_tags "Key::Hash" ∧
    lookupCount final1W.stored_value_tags "CLValue" =
      lookupCount (initState 1).stored_value_tags "CLValue" + 1 ∧
    lookupLens final1W.trie_lengths ("Key::Account", "CLValue") =
      lookupLens (initState 1).trie_lengths ("Key::Account", "CLValue") ++ [120] ∧
    lookupLens final1W.trie_lengths ("Key::Hash", "CLValue") =
      lookupLens (initState 1).trie_lengths ("Key::Hash", "CLValue") := by
  have h := C5_leaf_updates_record_length envW (initState 1) final1W 1 []
    ⟨120, some (.Leaf (.Account 7) ⟨"CLValue", 100⟩)⟩ (.Account 7) ⟨"CLValue", 100⟩
    rfl rfl rfl (by decide)
  exact ⟨h.1, h.2.1 "Key::Hash" (by decide), h.2.2.1,
    h.2.2.2.2.1, h.2.2.2.2.2 ("Key::Hash", "CLValue") (by decide)⟩

/-- Claim C6: for a pair with at least one recorded length the report
row's numbers satisfy `total = sum(lengths)` (by definition of
`total_len`), `average = total / count` truncating, and `max` bounds and
belongs to the lengths; consequently `average * count ≤ total ≤
average * count + count` and `max ≥ average`; a pair with no recorded
lengths produces no row at all. -/
theorem C6_pair_row_stats (kt svt : String) (lengths : List Nat) (h : lengths ≠ []) :
    average_len lengths * lengths.length ≤ total_len lengths ∧
    total_len lengths ≤ average_len lengths * lengths.length + lengths.length ∧
    average_len lengths ≤ max_len lengths ∧
    (∀ x ∈ lengths, x ≤ max_len lengths) ∧
    max_len lengths ∈ lengths ∧
    (pairRow kt svt lengths).isSome = true ∧
    pairRow kt svt [] = none := by
  have hpos : 0 < lengths.length := List.length_pos.mpr h
  refine ⟨?_, ?_, ?_, fun x hx => mem_le_max_len lengths x hx, max_len_mem lengths h, ?_, rfl⟩
  · exact Nat.div_mul_le_self _ _
  · have h1 := Nat.div_add_mod (total_len lengths) lengths.length
    have hr := Nat.mod_lt (total_len lengths) hpos
    calc total_len lengths
        = lengths.length * (total_len lengths / lengths.length)
            + total_len lengths % lengths.length := h1.symm
      _ ≤ lengths.length * (total_len lengths / lengths.length) + lengths.length :=
            Nat.add_le_add_left hr.le _
      _ = total_len lengths / lengths.length * lengths.length + lengths.length := by
            rw [Nat.mul_comm]
  · have hsum : total_len lengths ≤ lengths.length * max_len lengths :=
      sum_le_length_mul lengths (max_len lengths) (fun x hx => mem_le_max_len lengths x hx)
    calc average_len lengths
        = total_len lengths / lengths.length := rfl
      _ ≤ lengths.length * max_len lengths / lengths.length := Nat.div_le_div_right hsum
      _ = max_len lengths := Nat.mul_div_cancel_left _ hpos
  · simp [pairRow, h]

/-- Witness: `C6_pair_row_stats` instantiated on the length list `[2, 5, 3]`. -/
theorem C6_pair_row_stats_witness :
    average_len [2, 5, 3] * 3 ≤ total_len [2, 5, 3] ∧
    total_len [2, 5, 3] ≤ average_len [2, 5, 3] * 3 + 3 ∧
    average_len [2, 5, 3] ≤ max_len [2, 5, 3] ∧
    (5 : Nat) ≤ max_len [2, 5, 3] ∧
    max_len [2, 5, 3] ∈ [2, 5, 3] ∧
    (pairRow "Key::Account" "CLValue" [2, 5, 3]).isSome = true ∧
    pairRow "Key::Account" "CLValue" [] = none := by
  have h := C6_pair_row_stats "Key::Account" "CLValue" [2, 5, 3] (by decide)
  exact ⟨h.1, h.2.1, h.2.2.1, h.2.2.2.1 5 (by decide), h.2.2.2.2.1,
    h.2.2.2.2.2.1, h.2.2.2.2.2.2⟩

/-- A completed run started with non-emptiness of all recorded length
lists preserves it. -/
theorem runTrie_ok_lengthsNonempty (env : Env) :
    ∀ (fuel : Nat) (s : LoopState) (final : LoopState),
      runTrie env fuel s = some (.ok final) →
      lengthsNonempty s.trie_lengths → lengthsNonempty final.trie_lengths := by
  intro fuel
  induction fuel with
  | zero =>
    intro s final hrun
    simp [runTrie] at hrun
  | succ n ih =>
    intro s final hrun h
    rcases hl : s.unvisited_nodes with _ | ⟨d, rest⟩
    · simp [runTrie, trieStep, hl] at hrun
      subst hrun
      exact h
    · rcases hg : env.get d with _ | ⟨len, node⟩
      · simp [runTrie, trieStep, hl, hg] at hrun
      · rcases node with _ | tn
        · simp [runTrie, trieStep, hl, hg] at hrun
        · cases tn with
          | Leaf k v =>
            cases k with
            | EraInfo id =>
              rcases hdel : env.delete_key s.new_root_hash (.EraInfo id) with e | res
              · simp [runTrie, trieStep, hl, hg, log_trie_leaf_stats, hdel] at hrun
              · cases res with
                | Deleted root =>
                  simp only [runTrie, trieStep, hl, hg, log_trie_leaf_stats, hdel] at hrun
                  exact ih _ final hrun (lengthsNonempty_appendLen _ _ _ h)
                | DoesNotExist =>
                  simp [runTrie, trieStep, hl, hg, log_trie_leaf_stats, hdel] at hrun
                | RootNotFound =>
                  simp [runTrie, trieStep, hl, hg, log_trie_leaf_stats, hdel] at hrun
            | Account m =>
              simp only [runTrie, trieStep, hl, hg, log_trie_leaf_stats] at hrun
              exact ih _ final hrun (lengthsNonempty_appendLen _ _ _ h)
            | Hash m =>
              simp only [runTrie, trieStep, hl, hg, log_trie_leaf_stats] at hrun
              exact ih _ final hrun (lengthsNonempty_appendLen _ _ _ h)
            | URef m =>
              simp only [runTrie, trieStep, hl, hg, log_trie_leaf_stats] at hrun
              exact ih _ final hrun (lengthsNonempty_appendLen _ _ _ h)
            | Balance m =>
              simp only [runTrie, trieStep, hl, hg, log_trie_leaf_stats] at hrun
              exact ih _ final hrun (lengthsNonempty_appendLen _ _ _ h)
          | Node pb =>
            simp only [runTrie, trieStep, hl, hg] at hrun
            exact ih _ final hrun h
          | Extension affix ptr =>
            simp only [runTrie, trieStep, hl, hg] at hrun
            exact ih _ final hrun h

/-- Claim C7: a successful deletion changes only the root state and the
deletion counter beyond ordinary leaf processing: the step pops the
leaf, applies exactly the `log_trie_leaf_stats` accumulator updates and
the largest-record update, sets the root to the returned digest and
adds one to the counter — the frontier `rest` is untouched, and the run
continues on it against the same (unchanged) read view `env`. -/
theorem C7_delete_frame (env : Env) (s : LoopState) (d : Digest) (rest : List Digest)
    (len : Nat) (id : Nat) (v : StoredValue) (r : Digest)
    (hList : s.unvisited_nodes = d :: rest)
    (hget : env.get d = some ⟨len, some (.Leaf (.EraInfo id) v)⟩)
    (hdel : env.delete_key s.new_root_hash (.EraInfo id) = .ok (.Deleted r)) :
    let s' : LoopState :=
      { unvisited_nodes := rest
        deleted_era_info := s.deleted_era_info + 1
        new_root_hash := r
        key_tags := bumpCount s.key_tags (Key.EraInfo id).type_string
        stored_value_tags := bumpCount s.stored_value_tags v.type_name
        trie_lengths := appendLen s.trie_lengths ((Key.EraInfo id).type_string, v.type_name) len
        largest_record := if s.largest_record < len then len else s.largest_record }
    trieStep env s = .more s' ∧
    ∀ fuel, runTrie env (fuel + 1) s = runTrie env fuel s' := by
  intro s'
  have h1 : trieStep env s = .more s' := by
    simp [trieStep, hList, hget, log_trie_leaf_stats, hdel]
  refine ⟨h1, ?_⟩
  intro fuel
  simp [runTrie, h1]

/-- Witness: `C7_delete_frame` instantiated on the fixture step that deletes the
`EraInfo` leaf at digest `3`. -/
theorem C7_delete_frame_witness :
    trieStep envW (initState 3) = .more s3W ∧
    runTrie envW 2 (initState 3) = runTrie envW 1 s3W :=
  have h := C7_delete_frame envW (initState 3) 3 [] 40 1 ⟨"EraInfo", 20⟩ 103 rfl rfl rfl
  ⟨h.1, h.2 1⟩

/-- Claim C8: when the root resolves to a childless branch, the run
completes after two iterations with empty accumulators, a deletion
count of zero, and a report consisting of the three section headers with
no body rows. -/
theorem C8_empty_trie_run (env : Env) (R : Digest) (len : Nat)
    (hroot : env.get R = some ⟨len, some (.Node [])⟩) :
    runTrie env 2 (initState R) = some (.ok
      { unvisited_nodes := []
        deleted_era_info := 0
        new_root_hash := R
        key_tags := []
        stored_value_tags := []
        trie_lengths := []
        largest_record := if 0 < len then len else 0 }) ∧
    writeReport
      { unvisited_nodes := []
        deleted_era_info := 0
        new_root_hash := R
        key_tags := []
        stored_value_tags := []
        trie_lengths := []
        largest_record := if 0 < len then len else 0 } =
      ["key_tag, count", "stored_value_tag, count",
       "key_tag, stored_value_tag, average_len, max_len, total_len"] := by
  constructor
  · simp [runTrie, trieStep, initState, hroot]
  · rfl

/-- Witness: `C8_empty_trie_run` instantiated on the fixture store whose digest
`9` is a childless branch. -/
theorem C8_empty_trie_run_witness :
    runTrie envE 2 (initState 9) = some (.ok
      { unvisited_nodes := []
        deleted_era_info := 0
        new_root_hash := 9
        key_tags := []
        stored_value_tags := []
        trie_lengths := []
        largest_record := 7 }) ∧
    writeReport
      { unvisited_nodes := []
        deleted_era_info := 0
        new_root_hash := 9
        key_tags := []
        stored_value_tags := []
        trie_lengths := []
        largest_record := 7 } =
      ["key_tag, count", "stored_value_tag, count",
       "key_tag, stored_value_tag, average_len, max_len, total_len"] :=
  C8_empty_trie_run envE 9 7 rfl

/-- Claim C9: on a completed run over a well-formed store the deletion
counter equals the number of `EraInfo`-keyed leaf visits in the
reference unfolding; and the step on a leaf whose key is not in the
`EraInfo` category does not consult the delete service at all (its
result is unchanged under any replacement of `delete_key`). -/
theorem C9_deletes_exactly_era_info :
    (∀ (env : Env) (R : Digest) (t : TTree) (fuel : Nat) (final : LoopState),
       Unfolds env R t →
       runTrie env fuel (initState R) = some (.ok final) →
       final.deleted_era_info = t.eraLeafCount) ∧
    (∀ (env : Env) (f : Digest → Key → Except Unit DeleteResult) (s : LoopState)
       (d : Digest) (rest : List Digest) (rec : RawRecord) (k : Key) (v : StoredValue),
       k.isEraInfo = false →
       s.unvisited_nodes = d :: rest →
       env.get d = some rec →
       rec.node = some (.Leaf k v) →
       trieStep { env with delete_key := f } s = trieStep env s) := by
  constructor
  · intro env R t fuel final hwf hrun
    obtain ⟨-, -, -, h4⟩ := runTrie_ok_stats env fuel (initState R) [t] final
      (UnfoldsList.cons hwf UnfoldsList.nil) hrun
    simp [initState, eraLeafCountList] at h4
    exact h4
  · intro env f s d rest rec k v hk hl hg hn
    obtain ⟨len, node⟩ := rec
    simp only at hn
    subst hn
    cases k with
    | EraInfo id => simp [Key.isEraInfo] at hk
    | Account m => simp [trieStep, hl, hg, log_trie_leaf_stats]
    | Hash m => simp [trieStep, hl, hg, log_trie_leaf_stats]
    | URef m => simp [trieStep, hl, hg, log_trie_leaf_stats]
    | Balance m => simp [trieStep, hl, hg, log_trie_leaf_stats]

/-- Witness: `C9_deletes_exactly_era_info` instantiated: one `EraInfo` leaf in
the fixture tree, one deletion; the `Account` leaf's step ignores the
delete service. -/
theorem C9_deletes_exactly_era_info_witness :
    finalW.deleted_era_info = treeW.eraLeafCount ∧
    trieStep { envW with delete_key := fun _ _ => .error () } (initState 1) =
      trieStep envW (initState 1) :=
  ⟨C9_deletes_exactly_era_info.1 envW 0 treeW 10 finalW
     (Unfolds.branch rfl (UnfoldsList.cons (Unfolds.leaf rfl)
       (UnfoldsList.cons (Unfolds.ext rfl (Unfolds.leaf rfl)) UnfoldsList.nil)))
     rfl,
   C9_deletes_exactly_era_info.2 envW (fun _ _ => .error ()) (initState 1) 1 []
     ⟨120, some (.Leaf (.Account 7) ⟨"CLValue", 100⟩)⟩ (.Account 7) ⟨"CLValue", 100⟩
     rfl rfl rfl rfl⟩

/-- Claim C10: every pair present in `trie_lengths` always maps to a
non-empty length list (a pair is created together with its first
appended length), so on any completed run the finalization `continue`
for empty lists is unreachable: the third section has exactly one row
per recorded pair. -/
theorem C10_lengths_always_nonempty :
    (∀ (env : Env) (fuel : Nat) (R : Digest) (final : LoopState),
       runTrie env fuel (initState R) = some (.ok final) →
       lengthsNonempty final.trie_lengths) ∧
    (∀ m, lengthsNonempty m → (pairSection m).length = m.length) := by
  constructor
  · intro env fuel R final hrun
    refine runTrie_ok_lengthsNonempty env fuel (initState R) final hrun ?_
    intro p hp
    simp [initState] at hp
  · exact fun m h => pairSection_length m h

/-- Witness: `C10_lengths_always_nonempty` instantiated on the fixture run. -/
theorem C10_lengths_always_nonempty_witness :
    lengthsNonempty finalW.trie_lengths ∧
    (pairSection finalW.trie_lengths).length = finalW.trie_lengths.length := by
  have h1 := C10_lengths_always_nonempty.1 envW 10 0 finalW rfl
  exact ⟨h1, C10_lengths_always_nonempty.2 finalW.trie_lengths h1⟩

end TrieDiag
